import Mathlib

/-!
Verification of the depot storage-state library: a shallow embedding of its
storage engine (getStorageValue, setStorageValue, getSnapshot), its reactive
binding (useStorageState: argument guards, setValue fan-out, mount-time
reconcile effect), its change-notification bus (listeners.ts) and its cookie
adapter (CookieStorage), together with theorems about them.
-/

namespace Depot

/-- The JSONSerializable type of src/store/JSONSerializable.ts: strings,
numbers, booleans, null, arrays and string-keyed objects. Numbers are
modelled as integers (the claims under study do not depend on float
arithmetic). -/
inductive JSONValue where
  | null : JSONValue
  | bool : Bool → JSONValue
  | num : Int → JSONValue
  | str : String → JSONValue
  | arr : List JSONValue → JSONValue
  | obj : List (String × JSONValue) → JSONValue


/-- Top-level strict null test, modelling the TS comparisons
`value === null` and `value !== null`. -/
def JSONValue.isNull : JSONValue → Bool
  | JSONValue.null => true
  | _ => false

/-- True when every key of `b` also occurs among the keys of `a`. Helper for
the object case of lodash deep equality (same own-key sets). -/
def keysIncluded (b a : List (String × JSONValue)) : Bool :=
  b.all (fun f => (a.lookup f.1).isSome)

mutual

/-- Model of lodash isEqual restricted to JSON-serializable values: deep
structural comparison, where objects are compared as key-value mappings
(key order insensitive: same key sets, pointwise isEqual values) and arrays
are compared index by index. -/
def isEqual : JSONValue → JSONValue → Bool
  | JSONValue.null, JSONValue.null => true
  | JSONValue.bool a, JSONValue.bool b => a == b
  | JSONValue.num a, JSONValue.num b => a == b
  | JSONValue.str a, JSONValue.str b => a == b
  | JSONValue.arr a, JSONValue.arr b => isEqualList a b
  | JSONValue.obj a, JSONValue.obj b => isEqualFields a b && keysIncluded b a
  | _, _ => false

/-- Index-wise lodash equality of two arrays. -/
def isEqualList : List JSONValue → List JSONValue → Bool
  | [], [] => true
  | x :: xs, y :: ys => isEqual x y && isEqualList xs ys
  | _, _ => false

/-- Every field of the first object has an isEqual field in the second. -/
def isEqualFields : List (String × JSONValue) → List (String × JSONValue) → Bool
  | [], _ => true
  | f :: fs, b =>
      (match b.lookup f.1 with
        | some w => isEqual f.2 w
        | none => false) && isEqualFields fs b

end

/-- The serialized text each backend holds for a key, modelled one level above
raw characters: `wellformed v` stands for the canonical JSON text
`JSON.stringify` produces for `v`, and `malformed s` stands for a stored
string that is not valid JSON. JSON.parse and JSON.stringify are ECMAScript
builtins (not repository code); they are modelled by their inverse-pair
semantics on JSON-serializable values. -/
inductive Raw where
  | wellformed : JSONValue → Raw
  | malformed : String → Raw


/-- JSON.stringify restricted to JSONSerializable values: produces the
well-formed text of the value. -/
def stringify (v : JSONValue) : Raw := Raw.wellformed v

/-- JSON.parse: recovers the value from well-formed text and fails (throws,
modelled as `none`) on malformed text. -/
def parseJSON : Raw → Option JSONValue
  | Raw.wellformed v => some v
  | Raw.malformed _ => none

/-- The Storage capability contract (the DOM Storage interface the engine is
generic over): getItem, setItem and removeItem over string keys, each allowed
to throw (`Except.error`). State of type `σ` is passed explicitly; `getItem`
yields `none` for an absent key. -/
structure StorageOps (σ : Type) where
  getItem : σ → String → Except Unit (Option Raw)
  setItem : σ → String → Raw → Except Unit σ
  removeItem : σ → String → Except Unit σ

/-- src/store/storage.ts getStorageValue: reads `storage.getItem(key)` inside
try/catch; a thrown get, an absent key, or a JSON.parse failure all fall
through to the `return null` at the end, so the TS return type T|null is the
JSONValue itself with `JSONValue.null` standing for that null. -/
def getStorageValue {σ : Type} (ops : StorageOps σ) (s : σ) (key : String) : JSONValue :=
  match ops.getItem s key with
  | Except.error _ => JSONValue.null
  | Except.ok none => JSONValue.null
  | Except.ok (some raw) =>
      match parseJSON raw with
      | some v => v
      | none => JSONValue.null

/-- src/store/storage.ts setStorageValue: `value === null` removes the key,
any other value is stored as its JSON string; both inside try/catch, so a
throwing setItem/removeItem leaves the storage state unchanged. -/
def setStorageValue {σ : Type} (ops : StorageOps σ) (s : σ) (key : String) (v : JSONValue) : σ :=
  if v.isNull then
    match ops.removeItem s key with
    | Except.error _ => s
    | Except.ok s2 => s2
  else
    match ops.setItem s key (stringify v) with
    | Except.error _ => s
    | Except.ok s2 => s2

/-- src/store/storage.ts getSnapshot: walks the storages in list order and
returns the first getStorageValue result that is not null; otherwise the
initial value. -/
def getSnapshot {σ : Type} (ops : StorageOps σ) (key : String) (initialValue : JSONValue) :
    List σ → JSONValue
  | [] => initialValue
  | s :: rest =>
      let value := getStorageValue ops s key
      if value.isNull then getSnapshot ops key initialValue rest else value

/-- The storage-writing loop of useStorageState setValue:
`for (const storage of storages) setStorageValue(storage, key, nextValue)`,
each storage updated independently. -/
def setValueStores {σ : Type} (ops : StorageOps σ) (storages : List σ) (key : String)
    (v : JSONValue) : List σ :=
  storages.map (fun s => setStorageValue ops s key v)

/-- A concrete mock backend in the shape the repository tests use: an
association list of stored strings per key, plus flags saying whether each
operation throws when called (the contract allows any operation to throw). -/
structure Store where
  contents : List (String × Raw)
  getFails : Bool
  setFails : Bool
  removeFails : Bool


/-- Association-list update: drop any binding of the key, append the new one. -/
def setAList (l : List (String × Raw)) (key : String) (raw : Raw) : List (String × Raw) :=
  l.filter (fun e => e.1 != key) ++ [(key, raw)]

/-- Association-list removal of every binding of the key. -/
def removeAList (l : List (String × Raw)) (key : String) : List (String × Raw) :=
  l.filter (fun e => e.1 != key)

/-- The Storage contract instantiated at the mock backend. -/
def storeOps : StorageOps Store where
  getItem s key := if s.getFails then Except.error () else Except.ok (s.contents.lookup key)
  setItem s key raw :=
    if s.setFails then Except.error ()
    else Except.ok { s with contents := setAList s.contents key raw }
  removeItem s key :=
    if s.removeFails then Except.error ()
    else Except.ok { s with contents := removeAList s.contents key }

/-! ### Change notification bus (packages/depot/src/store/listeners.ts)

The bus maps each key to a JS Set of listener callbacks. Callback identity is
modelled by a natural-number token; a JS Set in insertion order is a
duplicate-free list. The process-wide `listenersByKey` map is modelled as an
explicitly passed association list in insertion order. -/

/-- The listenersByKey registry: keys with their listener sets. -/
abbrev Registry := List (String × List Nat)

/-- JS `Set.add`: append the listener unless it is already present. -/
def addToSet (l : Nat) (ls : List Nat) : List Nat :=
  if l ∈ ls then ls else ls ++ [l]

/-- listeners.ts subscribe: create an empty set for the key if absent, then
add the listener to the set of that key. -/
def subscribe (key : String) (l : Nat) (reg : Registry) : Registry :=
  let reg2 := if (reg.lookup key).isSome then reg else reg ++ [(key, [])]
  reg2.map (fun e => if e.1 = key then (e.1, addToSet l e.2) else e)

/-- listeners.ts unsubscribe (the closure returned by subscribe): if the key
has a set, delete the listener from it, and drop the key entirely once its
set becomes empty. -/
def unsubscribe (key : String) (l : Nat) (reg : Registry) : Registry :=
  reg.filterMap (fun e =>
    if e.1 = key then
      if (e.2.erase l).isEmpty then none else some (e.1, e.2.erase l)
    else some e)

/-- listeners.ts publish: the callbacks invoked, in set order, for the key --
every member of the set stored under the key, nobody else. -/
def publishList (key : String) (reg : Registry) : List Nat :=
  (reg.lookup key).getD []

/-- A listener is currently registered under a key: some entry of the
registry carries that key and contains the listener. -/
def registered (key : String) (l : Nat) (reg : Registry) : Prop :=
  ∃ e ∈ reg, e.1 = key ∧ l ∈ e.2

/-- Well-formedness of the registry as maintained by the JS Map of Sets:
keys are unique, and every key maps to a duplicate-free set. (That every set
is also non-empty is exactly the invariant of claim C7, proved below, so it
is kept out of this definition.) -/
def WFReg (reg : Registry) : Prop :=
  (reg.map Prod.fst).Nodup ∧ ∀ e ∈ reg, e.2.Nodup

instance (reg : Registry) : Decidable (WFReg reg) := by
  unfold WFReg; exact inferInstance

/-- Every key present in the registry holds a non-empty listener set. -/
def allEntriesNonempty (reg : Registry) : Prop :=
  ∀ e ∈ reg, e.2 ≠ []

instance (reg : Registry) : Decidable (allEntriesNonempty reg) := by
  unfold allEntriesNonempty; exact inferInstance

/-- Registry states reachable from the initial empty bus by any sequence of
subscribe and disposer (unsubscribe) calls; publish does not change the
registry. -/
inductive Reachable : Registry → Prop where
  | init : Reachable []
  | sub (key : String) (l : Nat) {reg : Registry} : Reachable reg → Reachable (subscribe key l reg)
  | unsub (key : String) (l : Nat) {reg : Registry} : Reachable reg → Reachable (unsubscribe key l reg)

/-! ### Reactive binding (src/hooks/useStorageState.ts) -/

/-- The setValue closure of useStorageState: write the value to every storage
in order, then publish on the bus for the key. The result is the updated
storages and the listeners the publish invokes. -/
def setValueHook {σ : Type} (ops : StorageOps σ) (storages : List σ) (reg : Registry)
    (key : String) (v : JSONValue) : List σ × List Nat :=
  (setValueStores ops storages key v, publishList key reg)

/-- The body of the mount-time reconcile useEffect: walk the storages; at the
first one whose stored value is not isEqual to the snapshot, run
setValue(snapshot) -- a fan-out write to the full bound list `all` -- and
stop. -/
def reconcileLoop {σ : Type} (ops : StorageOps σ) (key : String) (snapshot : JSONValue) :
    List σ → List σ → List σ
  | [], all => all
  | s :: rest, all =>
      if isEqual (getStorageValue ops s key) snapshot
      then reconcileLoop ops key snapshot rest all
      else setValueStores ops all key snapshot

/-- The reconcile useEffect of useStorageState: `if (snapshot == null) return`
guard, then the comparison loop over the storages. Returns the storage states
after the effect. -/
def reconcile {σ : Type} (ops : StorageOps σ) (key : String) (snapshot : JSONValue)
    (storages : List σ) : List σ :=
  if snapshot.isNull then storages else reconcileLoop ops key snapshot storages storages

/-- The storages-changed test of useStorageState, over storage identities
(object identity is modelled by a token): the remembered list and the list
supplied on a later render differ in length, or some remembered element
differs from the element at the same index. -/
def storagesChanged (old new : List Nat) : Bool :=
  old.length != new.length || (List.range old.length).any (fun i => old[i]? != new[i]?)

/-- The argument guards at the top of useStorageState: a changed key throws,
then a changed storage list throws; otherwise the hook proceeds. `refKey` and
`refStorages` are the values remembered in refs from the first activation. -/
def useStorageStateGuard (refKey key : String) (refStorages storages : List Nat) :
    Except String Unit :=
  if refKey != key then
    Except.error "Invalid use of useStorageState hook: key cannot be changed after initialization"
  else if storagesChanged refStorages storages then
    Except.error "Invalid use of useStorageState hook: storages cannot be changed after initialization"
  else Except.ok ()

/-! ### Cookie adapter (src/adapters/CookieStorage.ts)

The document.cookie jar is modelled as a list of named entries with their
path attribute, in insertion order; assigning a cookie string with an
existing name replaces that entry, and assigning with max-age=0 deletes it.
encodeURIComponent/decodeURIComponent are ECMAScript builtins forming an
inverse pair, so names and values are carried in decoded form. -/

/-- One cookie of the document cookie store: name, held text and path
attribute. -/
structure CookieEntry where
  name : String
  value : Raw
  path : String

/-- The document.cookie store. -/
structure CookieJar where
  entries : List CookieEntry

/-- CookieStorage.parseCookies: the cookies visible to an adapter configured
with key text pfx (the `prefix` option): all of them when pfx is empty,
otherwise those whose name starts with pfx. -/
def parseCookies (pfx : String) (jar : CookieJar) : List (String × Raw) :=
  jar.entries.filterMap (fun e =>
    if pfx = "" || e.name.startsWith pfx then some (e.name, e.value) else none)

/-- CookieStorage.setCookie: assign `pfx+key=value; path=P`, replacing any
cookie of the same name. -/
def setCookie (pfx path : String) (jar : CookieJar) (key : String) (value : Raw) : CookieJar :=
  ⟨jar.entries.filter (fun e => e.name != pfx ++ key) ++ [⟨pfx ++ key, value, path⟩]⟩

/-- CookieStorage.removeCookie: assign the name with max-age=0, deleting the
cookie. -/
def removeCookie (pfx : String) (_path : String) (jar : CookieJar) (key : String) : CookieJar :=
  ⟨jar.entries.filter (fun e => e.name != pfx ++ key)⟩

/-- The Storage contract as implemented by CookieStorage with a given key
text pfx and path: getItem looks the prefixed key up among the visible
cookies, setItem and removeItem write through document.cookie; none of them
throws. -/
def cookieOps (pfx path : String) : StorageOps CookieJar where
  getItem jar key := Except.ok ((parseCookies pfx jar).lookup (pfx ++ key))
  setItem jar key raw := Except.ok (setCookie pfx path jar key raw)
  removeItem jar key := Except.ok (removeCookie pfx path jar key)

/-! ### Definitions written from the words of the specification, for the
refinement claims C1 and C5. -/

/-- Resolution exactly as the words of claim C1 state it: the decoded value
of the first backend whose get yields a present, decodable entry (a throwing
get or an undecodable entry yields nothing); the initial value if no backend
yields one. -/
def specResolve {σ : Type} (ops : StorageOps σ) (key : String) (initialValue : JSONValue) :
    List σ → JSONValue
  | [] => initialValue
  | s :: rest =>
      match ops.getItem s key with
      | Except.ok (some raw) =>
          match parseJSON raw with
          | some v => v
          | none => specResolve ops key initialValue rest
      | _ => specResolve ops key initialValue rest

/-- Resolution as claim C1 must be amended: like specResolve, but an entry
that decodes to JSON null is skipped exactly like an absent one (the code
cannot distinguish the two, since getStorageValue returns null for both). -/
def specResolveNonNull {σ : Type} (ops : StorageOps σ) (key : String) (initialValue : JSONValue) :
    List σ → JSONValue
  | [] => initialValue
  | s :: rest =>
      match ops.getItem s key with
      | Except.ok (some raw) =>
          match parseJSON raw with
          | some v =>
              if v.isNull then specResolveNonNull ops key initialValue rest else v
          | none => specResolveNonNull ops key initialValue rest
      | _ => specResolveNonNull ops key initialValue rest

/-- The reconcile comparison exactly as the words of claim C5 state it: a
backend whose get throws is skipped, not treated as a differing backend; only
a non-throwing backend whose stored value differs from the snapshot triggers
the fan-out write. -/
def specReconcile (key : String) (snapshot : JSONValue) (storages : List Store) : List Store :=
  if storages.any (fun s => !s.getFails && !isEqual (getStorageValue storeOps s key) snapshot)
  then setValueStores storeOps storages key snapshot
  else storages

/-! ### Basic lemmas -/

/-- Characterization of the top-level null test. -/
lemma isNull_eq_true_iff (v : JSONValue) : v.isNull = true ↔ v = JSONValue.null := by
  cases v <;> simp [JSONValue.isNull]

/-- lodash equality with null on the left holds exactly for null. -/
lemma isEqual_null_left (v : JSONValue) : isEqual JSONValue.null v = v.isNull := by
  cases v <;> simp [isEqual, JSONValue.isNull]

/-- Looking a key up after filtering that key out finds nothing. -/
lemma lookup_filter_ne {β : Type} (l : List (String × β)) (key : String) :
    List.lookup key (l.filter fun e => e.1 != key) = none := by
  induction l with
  | nil => rfl
  | cons e rest ih =>
    obtain ⟨a, b⟩ := e
    rw [List.filter_cons]
    by_cases he : a = key
    · subst he
      simp [ih]
    · have hk : (key == a) = false := beq_eq_false_iff_ne.mpr (Ne.symm he)
      simp [List.lookup, he, hk, ih, bne_iff_ne]

/-- Lookup distributes to the right part of an append when the left part has
no binding for the key. -/
lemma lookup_append_of_none {α β : Type} [BEq α] (a b : List (α × β)) (k : α)
    (h : List.lookup k a = none) : List.lookup k (a ++ b) = List.lookup k b := by
  induction a with
  | nil => rfl
  | cons e rest ih =>
    by_cases hk : (k == e.1) = true
    · simp [List.lookup, hk] at h
    · simp [List.lookup, hk] at h ⊢
      exact ih h

/-- After an association-list update, the key maps to the new text. -/
lemma lookup_setAList (l : List (String × Raw)) (key : String) (raw : Raw) :
    List.lookup key (setAList l key raw) = some raw := by
  unfold setAList
  rw [lookup_append_of_none _ _ _ (lookup_filter_ne l key)]
  simp [List.lookup]

/-! ### Claim C1: read-priority resolution -/

/-- C1 (amended): resolve (getSnapshot) returns the decoded value of the
first storage whose get yields a present, decodable value other than JSON
null, iterating strictly in list order; storages whose entry is absent,
undecodable, or decodes to null are skipped, and if no storage yields such a
value the initial value is returned. -/
theorem getSnapshot_eq_specResolveNonNull {σ : Type} (ops : StorageOps σ) (key : String)
    (init : JSONValue) (storages : List σ) :
    getSnapshot ops key init storages = specResolveNonNull ops key init storages := by
  induction storages with
  | nil => rfl
  | cons s rest ih =>
    simp only [getSnapshot, specResolveNonNull, getStorageValue]
    cases hg : ops.getItem s key with
    | error e => simpa [JSONValue.isNull] using ih
    | ok o =>
      cases o with
      | none => simpa [JSONValue.isNull] using ih
      | some raw =>
        cases raw with
        | wellformed v => simp [parseJSON, ih]
        | malformed str => simpa [parseJSON, JSONValue.isNull] using ih

/-- C1 (counterexample): a storage holding the literal JSON text null for the
key yields a present, decodable value, so the claim as stated says resolve
returns null; the code skips it and returns the initial value instead. -/
theorem getSnapshot_ne_specResolve_on_null_entry :
    getSnapshot storeOps "k" (JSONValue.str "a")
        [⟨[("k", Raw.wellformed JSONValue.null)], false, false, false⟩] = JSONValue.str "a"
    ∧ specResolve storeOps "k" (JSONValue.str "a")
        [⟨[("k", Raw.wellformed JSONValue.null)], false, false, false⟩] = JSONValue.null
    ∧ getSnapshot storeOps "k" (JSONValue.str "a")
        [⟨[("k", Raw.wellformed JSONValue.null)], false, false, false⟩]
      ≠ specResolve storeOps "k" (JSONValue.str "a")
        [⟨[("k", Raw.wellformed JSONValue.null)], false, false, false⟩] := by
  refine ⟨rfl, rfl, ?_⟩
  intro h
  exact JSONValue.noConfusion h

/-! ### Claim C3: write/read round trip and null-means-delete -/

/-- C3: on a storage whose operations do not throw, writing any
JSON-encodable value and reading it back yields the value itself; writing
null removes the key (the stored binding becomes absent, not the literal text
null), and a null fan-out write removes the key from every storage in the
list. -/
theorem setStorageValue_roundTrip (s : Store) (key : String) (v : JSONValue)
    (stores : List Store) (hg : s.getFails = false) (hs : s.setFails = false)
    (hr : s.removeFails = false) (hall : ∀ t ∈ stores, t.removeFails = false) :
    getStorageValue storeOps (setStorageValue storeOps s key v) key = v
    ∧ (v.isNull = true → List.lookup key (setStorageValue storeOps s key v).contents = none)
    ∧ ∀ t ∈ setValueStores storeOps stores key JSONValue.null,
        List.lookup key t.contents = none := by
  refine ⟨?_, ?_, ?_⟩
  · by_cases hv : v.isNull = true
    · rw [isNull_eq_true_iff] at hv
      subst hv
      simp [setStorageValue, storeOps, hr, getStorageValue, hg, JSONValue.isNull,
        removeAList, lookup_filter_ne]
    · simp only [setStorageValue, hv, Bool.false_eq_true, if_false]
      simp [storeOps, hs, getStorageValue, hg, lookup_setAList, stringify, parseJSON]
  · intro hv
    simp [setStorageValue, hv, storeOps, hr, removeAList, lookup_filter_ne]
  · intro t ht
    simp only [setValueStores, List.mem_map] at ht
    obtain ⟨t0, ht0, rfl⟩ := ht
    simp [setStorageValue, JSONValue.isNull, storeOps, hall t0 ht0, removeAList,
      lookup_filter_ne]

/-- Witness for C3 at a concrete storage and value. -/
theorem setStorageValue_roundTrip_witness :
    getStorageValue storeOps
        (setStorageValue storeOps ⟨[], false, false, false⟩ "k" (JSONValue.str "v")) "k"
      = JSONValue.str "v"
    ∧ List.lookup "k"
        (setStorageValue storeOps ⟨[("k", Raw.wellformed (JSONValue.str "v"))], false, false, false⟩
          "k" JSONValue.null).contents = none := by
  have h1 := setStorageValue_roundTrip ⟨[], false, false, false⟩ "k" (JSONValue.str "v") []
    rfl rfl rfl (by intro t ht; cases ht)
  have h2 := setStorageValue_roundTrip
    ⟨[("k", Raw.wellformed (JSONValue.str "v"))], false, false, false⟩ "k" JSONValue.null []
    rfl rfl rfl (by intro t ht; cases ht)
  exact ⟨h1.1, h2.2.1 rfl⟩

/-! ### Claim C4: backend operation errors are recovered locally -/

/-- C4: a storage whose getItem throws contributes null (absent) to reads and
is stepped over by getSnapshot; a storage whose setItem or removeItem throws
is left unchanged by a write; and the fan-out write processes each storage of
the list independently of the others. No branch of these functions escapes
with an error: the try/catch of the source is what makes the model total. -/
theorem storage_failure_recovered (s : Store) (stores : List Store) (key : String)
    (v init : JSONValue) :
    (s.getFails = true → getStorageValue storeOps s key = JSONValue.null)
    ∧ (s.getFails = true →
        getSnapshot storeOps key init (s :: stores) = getSnapshot storeOps key init stores)
    ∧ (s.setFails = true → v.isNull = false → setStorageValue storeOps s key v = s)
    ∧ (s.removeFails = true → setStorageValue storeOps s key JSONValue.null = s)
    ∧ setValueStores storeOps (s :: stores) key v
        = setStorageValue storeOps s key v :: setValueStores storeOps stores key v := by
  refine ⟨?_, ?_, ?_, ?_, rfl⟩
  · intro h; simp [getStorageValue, storeOps, h]
  · intro h; simp [getSnapshot, getStorageValue, storeOps, h, JSONValue.isNull]
  · intro h hv; simp [setStorageValue, hv, storeOps, h]
  · intro h; simp [setStorageValue, JSONValue.isNull, storeOps, h]

/-- Witness for C4 at a storage all of whose operations throw. -/
theorem storage_failure_recovered_witness :
    getStorageValue storeOps ⟨[("k", Raw.wellformed (JSONValue.str "y"))], true, true, true⟩ "k"
      = JSONValue.null
    ∧ getSnapshot storeOps "k" (JSONValue.str "i")
        [⟨[("k", Raw.wellformed (JSONValue.str "y"))], true, true, true⟩]
      = getSnapshot storeOps "k" (JSONValue.str "i") []
    ∧ setStorageValue storeOps ⟨[("k", Raw.wellformed (JSONValue.str "y"))], true, true, true⟩
        "k" (JSONValue.str "v")
      = ⟨[("k", Raw.wellformed (JSONValue.str "y"))], true, true, true⟩
    ∧ setStorageValue storeOps ⟨[("k", Raw.wellformed (JSONValue.str "y"))], true, true, true⟩
        "k" JSONValue.null
      = ⟨[("k", Raw.wellformed (JSONValue.str "y"))], true, true, true⟩ := by
  obtain ⟨a, b, c, d, -⟩ := storage_failure_recovered
    ⟨[("k", Raw.wellformed (JSONValue.str "y"))], true, true, true⟩ [] "k"
    (JSONValue.str "v") (JSONValue.str "i")
  exact ⟨a rfl, b rfl, c rfl rfl, d rfl⟩

/-! ### Claim C9: cookie write scenario -/

/-- C9: writing key theme with value dark through a cookie backend configured
with the key text app_ leaves the cookie store with an entry named app_theme
whose held text is the serialized form of the value dark and whose attributes
include path=/. -/
theorem cookie_write_app_theme :
    setStorageValue (cookieOps "app_" "/") ⟨[]⟩ "theme" (JSONValue.str "dark")
      = ⟨[⟨"app_theme", Raw.wellformed (JSONValue.str "dark"), "/"⟩]⟩ := by
  rfl

/-! ### Claim C10: the engine accepts an empty storage list -/

/-- Adding a listener puts it in the set. -/
lemma mem_addToSet_self (l : Nat) (ls : List Nat) : l ∈ addToSet l ls := by
  unfold addToSet
  by_cases h : l ∈ ls <;> simp [h]

/-- Lookup through the listener-adding map of subscribe. -/
lemma lookup_map_addToSet (key : String) (l : Nat) (reg : Registry) :
    List.lookup key (reg.map (fun e => if e.1 = key then (e.1, addToSet l e.2) else e))
      = (List.lookup key reg).map (addToSet l) := by
  induction reg with
  | nil => rfl
  | cons e rest ih =>
    obtain ⟨a, b⟩ := e
    by_cases he : a = key
    · subst he
      rw [List.map_cons, if_pos rfl]
      simp [List.lookup, ih]
    · rw [List.map_cons, if_neg he]
      have hk : (key == a) = false := beq_eq_false_iff_ne.mpr (Ne.symm he)
      simp [List.lookup, hk, ih]

/-- After subscribing a listener under a key, publish for that key invokes
it. -/
lemma mem_publishList_subscribe (key : String) (l : Nat) (reg : Registry) :
    l ∈ publishList key (subscribe key l reg) := by
  unfold publishList subscribe
  cases hval : List.lookup key reg with
  | some ls => simp [hval, lookup_map_addToSet, mem_addToSet_self]
  | none =>
    have h1 : List.lookup key
        (reg.map (fun e => if e.1 = key then (e.1, addToSet l e.2) else e)) = none := by
      rw [lookup_map_addToSet, hval]
      rfl
    have h2 : List.lookup key
        (reg.map (fun e => if e.1 = key then (e.1, addToSet l e.2) else e)
          ++ [(key, addToSet l [])]) = some (addToSet l []) := by
      rw [lookup_append_of_none _ _ _ h1]
      simp [List.lookup]
    simp [hval, h2, mem_addToSet_self]

/-- C10: getSnapshot over zero storages returns the initial value, and the
setValue of a binding with zero storages touches no storage while still
publishing on the bus: a listener subscribed to the key is invoked. -/
theorem empty_storages_accepted {σ : Type} (ops : StorageOps σ) (key : String)
    (init v : JSONValue) (reg : Registry) (l : Nat) :
    getSnapshot ops key init ([] : List σ) = init
    ∧ (setValueHook ops ([] : List σ) reg key v).1 = []
    ∧ l ∈ (setValueHook ops ([] : List σ) (subscribe key l reg) key v).2 := by
  exact ⟨rfl, rfl, mem_publishList_subscribe key l reg⟩

/-! ### Claim C8: binding argument guards -/

/-- Discriminator for thrown guard failures. -/
def isError {ε α : Type} : Except ε α → Bool
  | Except.error _ => true
  | Except.ok _ => false

/-- C8: supplying on a later activation a key different from the remembered
one, or a storage list of different length, or one whose element at some
remembered index has a different identity, makes the useStorageState guards
throw. -/
theorem guard_rejects_changed_args (refKey key : String) (refStorages storages : List Nat)
    (h : refKey ≠ key ∨ refStorages.length ≠ storages.length
        ∨ ∃ i, i < refStorages.length ∧ refStorages[i]? ≠ storages[i]?) :
    isError (useStorageStateGuard refKey key refStorages storages) = true := by
  by_cases hk : refKey = key
  · subst hk
    have hch : storagesChanged refStorages storages = true := by
      rcases h with h | h | h
      · exact absurd rfl h
      · unfold storagesChanged
        simp [h]
      · obtain ⟨i, hi, hne⟩ := h
        unfold storagesChanged
        refine Bool.or_eq_true_iff.mpr (Or.inr ?_)
        refine List.any_eq_true.mpr ⟨i, List.mem_range.mpr hi, ?_⟩
        exact bne_iff_ne.mpr hne
    simp [useStorageStateGuard, hch, isError]
  · simp [useStorageStateGuard, bne_iff_ne.mpr hk, isError]

/-- Witness for C8: same key, same length, element of different identity. -/
theorem guard_rejects_changed_args_witness :
    isError (useStorageStateGuard "a" "a" [0] [1]) = true :=
  guard_rejects_changed_args "a" "a" [0] [1]
    (Or.inr (Or.inr ⟨0, by decide, by decide⟩))

/-! ### Claim C2: mount-time reconciliation fans the snapshot out -/

/-- When resolution yields null, every storage contributed null. -/
lemma getSnapshot_isNull_forall {σ : Type} (ops : StorageOps σ) (key : String)
    (init : JSONValue) (l : List σ) (h : (getSnapshot ops key init l).isNull = true) :
    ∀ s ∈ l, (getStorageValue ops s key).isNull = true := by
  induction l with
  | nil => intro t ht; cases ht
  | cons s rest ih =>
    have hcons : getSnapshot ops key init (s :: rest)
        = if (getStorageValue ops s key).isNull then getSnapshot ops key init rest
          else getStorageValue ops s key := rfl
    rw [hcons] at h
    by_cases hv : (getStorageValue ops s key).isNull = true
    · rw [if_pos hv] at h
      intro t ht
      rcases List.mem_cons.mp ht with rfl | htr
      · exact hv
      · exact ih h t htr
    · rw [if_neg hv] at h
      exact absurd h hv

/-- The comparison loop of the reconcile effect performs the full fan-out
write as soon as some storage in it holds a value not isEqual to the
snapshot. -/
lemma reconcileLoop_write {σ : Type} (ops : StorageOps σ) (key : String) (snap : JSONValue)
    (l all : List σ) (h : ∃ s ∈ l, isEqual (getStorageValue ops s key) snap = false) :
    reconcileLoop ops key snap l all = setValueStores ops all key snap := by
  induction l with
  | nil =>
    obtain ⟨s, hs, -⟩ := h
    cases hs
  | cons s rest ih =>
    by_cases hc : isEqual (getStorageValue ops s key) snap = true
    · have hstep : reconcileLoop ops key snap (s :: rest) all
          = reconcileLoop ops key snap rest all := by
        simp [reconcileLoop, hc]
      rw [hstep]
      apply ih
      obtain ⟨t, ht, hf⟩ := h
      rcases List.mem_cons.mp ht with rfl | htr
      · rw [hc] at hf
        cases hf
      · exact ⟨t, htr, hf⟩
    · have hc2 : isEqual (getStorageValue ops s key) snap = false := by
        cases hb : isEqual (getStorageValue ops s key) snap
        · rfl
        · exact absurd hb hc
      simp [reconcileLoop, hc2]

/-- C2: at first mount, if any storage in the bound list holds a decoded
value that is not isEqual (lodash deep equality) to the resolved snapshot,
the reconcile effect performs the full fan-out write of the resolved snapshot
to every storage of the list. -/
theorem reconcile_fanout {σ : Type} (ops : StorageOps σ) (key : String) (init : JSONValue)
    (storages : List σ)
    (h : ∃ s ∈ storages,
        isEqual (getStorageValue ops s key) (getSnapshot ops key init storages) = false) :
    reconcile ops key (getSnapshot ops key init storages) storages
      = setValueStores ops storages key (getSnapshot ops key init storages) := by
  obtain ⟨t, ht, hf⟩ := h
  have hnn : (getSnapshot ops key init storages).isNull = false := by
    cases h0 : (getSnapshot ops key init storages).isNull with
    | false => rfl
    | true =>
      exfalso
      have hv := getSnapshot_isNull_forall ops key init storages h0 t ht
      rw [isNull_eq_true_iff] at hv h0
      rw [hv, h0, isEqual_null_left] at hf
      simp [JSONValue.isNull] at hf
  unfold reconcile
  simp only [hnn, Bool.false_eq_true, if_false]
  exact reconcileLoop_write ops key _ storages storages ⟨t, ht, hf⟩

/-- Storage holding the serialized string x for key k -- backend A of the
convergence scenario of the specification. -/
def storeAx : Store := ⟨[("k", Raw.wellformed (JSONValue.str "x"))], false, false, false⟩

/-- Fully working storage holding nothing -- backend B of the convergence
scenario. -/
def storeEmptyOk : Store := ⟨[], false, false, false⟩

/-- Witness for C2: the convergence scenario of the specification, backends
[A, B] with A holding x and B holding nothing; after the reconcile effect
both hold x. -/
theorem reconcile_fanout_witness :
    (∃ s ∈ [storeAx, storeEmptyOk],
        isEqual (getStorageValue storeOps s "k")
          (getSnapshot storeOps "k" (JSONValue.str "i") [storeAx, storeEmptyOk]) = false)
    ∧ reconcile storeOps "k"
        (getSnapshot storeOps "k" (JSONValue.str "i") [storeAx, storeEmptyOk])
        [storeAx, storeEmptyOk]
      = [⟨[("k", Raw.wellformed (JSONValue.str "x"))], false, false, false⟩,
         ⟨[("k", Raw.wellformed (JSONValue.str "x"))], false, false, false⟩] := by
  have hsnap : getSnapshot storeOps "k" (JSONValue.str "i") [storeAx, storeEmptyOk]
      = JSONValue.str "x" := rfl
  have hget : getStorageValue storeOps storeEmptyOk "k" = JSONValue.null := rfl
  have hex : ∃ s ∈ [storeAx, storeEmptyOk],
      isEqual (getStorageValue storeOps s "k")
        (getSnapshot storeOps "k" (JSONValue.str "i") [storeAx, storeEmptyOk]) = false := by
    refine ⟨storeEmptyOk, by simp, ?_⟩
    rw [hsnap, hget, isEqual_null_left]
    rfl
  refine ⟨hex, ?_⟩
  rw [reconcile_fanout storeOps "k" (JSONValue.str "i") [storeAx, storeEmptyOk] hex, hsnap]
  rfl

/-! ### Claim C5: a backend whose get throws, during Resolve and Reconcile -/

/-- Storage whose getItem throws; its write operations work. -/
def storeGetFails : Store := ⟨[], true, false, false⟩

/-- C5 (counterexample): with backends [A, B] where the get of A throws and B
holds x, the resolved snapshot is x; the claim says A is skipped by the
reconcile comparison (specReconcile), leaving every backend unchanged, but
the code treats the thrown get as a differing null contribution and performs
the fan-out write, storing x into A. -/
theorem reconcile_not_skipping_failing_get :
    reconcile storeOps "k"
        (getSnapshot storeOps "k" (JSONValue.str "i") [storeGetFails, storeAx])
        [storeGetFails, storeAx]
      ≠ specReconcile "k"
          (getSnapshot storeOps "k" (JSONValue.str "i") [storeGetFails, storeAx])
          [storeGetFails, storeAx] := by
  have hsnap : getSnapshot storeOps "k" (JSONValue.str "i") [storeGetFails, storeAx]
      = JSONValue.str "x" := rfl
  rw [hsnap]
  have h1 : reconcile storeOps "k" (JSONValue.str "x") [storeGetFails, storeAx]
      = [⟨[("k", Raw.wellformed (JSONValue.str "x"))], true, false, false⟩,
         ⟨[("k", Raw.wellformed (JSONValue.str "x"))], false, false, false⟩] := by
    unfold reconcile reconcileLoop
    rw [show getStorageValue storeOps storeGetFails "k" = JSONValue.null from rfl,
      isEqual_null_left]
    simp only [JSONValue.isNull, Bool.false_eq_true, if_false]
    rfl
  have hx : isEqual (getStorageValue storeOps storeAx "k") (JSONValue.str "x") = true := by
    rw [show getStorageValue storeOps storeAx "k" = JSONValue.str "x" from rfl]
    simp [isEqual]
  have h2 : specReconcile "k" (JSONValue.str "x") [storeGetFails, storeAx]
      = [storeGetFails, storeAx] := by
    unfold specReconcile
    have hanyf : ([storeGetFails, storeAx].any fun s =>
        !s.getFails && !isEqual (getStorageValue storeOps s "k") (JSONValue.str "x")) = false := by
      simp [List.any_cons, List.any_nil, hx,
        show storeGetFails.getFails = true from rfl,
        show storeAx.getFails = false from rfl]
    simp [hanyf]
  rw [h1, h2]
  intro hcontra
  simp [storeGetFails, storeAx] at hcontra

/-- C5 (amended): a backend whose get throws contributes null, so it is
treated as absent during Resolve; during the mount-time Reconcile comparison
it is likewise seen as holding null, which differs from any non-null resolved
snapshot, so its presence triggers the full fan-out write (it is not skipped
by the comparison); in neither phase does the thrown get abort processing of
the list. -/
theorem failing_get_absent_everywhere (s : Store) (rest : List Store) (key : String)
    (init snap : JSONValue) (hg : s.getFails = true) (hs : snap.isNull = false) :
    getSnapshot storeOps key init (s :: rest) = getSnapshot storeOps key init rest
    ∧ reconcile storeOps key snap (s :: rest) = setValueStores storeOps (s :: rest) key snap := by
  have hval : getStorageValue storeOps s key = JSONValue.null := by
    simp [getStorageValue, storeOps, hg]
  constructor
  · simp [getSnapshot, hval, JSONValue.isNull]
  · unfold reconcile reconcileLoop
    rw [hval, isEqual_null_left, hs]
    simp [hs]

/-- Witness for C5 amended, at the counterexample scenario. -/
theorem failing_get_absent_everywhere_witness :
    getSnapshot storeOps "k" (JSONValue.str "i") [storeGetFails, storeAx]
      = getSnapshot storeOps "k" (JSONValue.str "i") [storeAx]
    ∧ reconcile storeOps "k" (JSONValue.str "x") [storeGetFails, storeAx]
      = setValueStores storeOps [storeGetFails, storeAx] "k" (JSONValue.str "x") :=
  failing_get_absent_everywhere storeGetFails [storeAx] "k" (JSONValue.str "i")
    (JSONValue.str "x") rfl rfl

/-! ### Claims C6 and C7: the change notification bus -/

/-- A lookup that misses means no entry carries the key. -/
lemma forall_ne_of_lookup_none {α β : Type} [BEq α] [LawfulBEq α] (reg : List (α × β)) (k : α)
    (h : List.lookup k reg = none) : ∀ e ∈ reg, e.1 ≠ k := by
  induction reg with
  | nil => intro e he; cases he
  | cons e rest ih =>
    obtain ⟨a, b⟩ := e
    intro e2 he2
    cases hbeq : (k == a) with
    | true => simp [List.lookup, hbeq] at h
    | false =>
      simp only [List.lookup, hbeq] at h
      rcases List.mem_cons.mp he2 with rfl | h2
      · exact fun hek => (by simp at hbeq; exact hbeq (hek ▸ rfl) : False)
      · exact ih h e2 h2

/-- Converse: when no entry carries the key, lookup misses. -/
lemma lookup_none_of_forall_ne {α β : Type} [BEq α] [LawfulBEq α] (reg : List (α × β)) (k : α)
    (h : ∀ e ∈ reg, e.1 ≠ k) : List.lookup k reg = none := by
  induction reg with
  | nil => rfl
  | cons e rest ih =>
    obtain ⟨a, b⟩ := e
    have ha : a ≠ k := h (a, b) (by simp)
    have hbeq : (k == a) = false := beq_eq_false_iff_ne.mpr (Ne.symm ha)
    simp only [List.lookup, hbeq]
    exact ih (fun e2 he2 => h e2 (List.mem_cons_of_mem _ he2))

/-- The entry a successful lookup returns is an entry of the list. -/
lemma lookup_some_entry_mem {α β : Type} [BEq α] [LawfulBEq α] (reg : List (α × β)) (k : α)
    (ls : β) (h : List.lookup k reg = some ls) : ∃ e ∈ reg, e.1 = k ∧ e.2 = ls := by
  induction reg with
  | nil => cases h
  | cons e rest ih =>
    obtain ⟨a, b⟩ := e
    cases hbeq : (k == a) with
    | true =>
      simp only [List.lookup, hbeq] at h
      obtain rfl : b = ls := by cases h; rfl
      exact ⟨(a, b), by simp, (eq_of_beq hbeq).symm, rfl⟩
    | false =>
      simp only [List.lookup, hbeq] at h
      obtain ⟨e2, he2, hf⟩ := ih h
      exact ⟨e2, List.mem_cons_of_mem _ he2, hf⟩

/-- Unsubscribing leaves entries of other keys untouched. -/
lemma unsubscribe_cons_ne (k : String) (l : Nat) (e : String × List Nat)
    (rest : Registry) (h : e.1 ≠ k) :
    unsubscribe k l (e :: rest) = e :: unsubscribe k l rest := by
  unfold unsubscribe
  rw [List.filterMap_cons]
  simp [h]

/-- Unsubscribing the last listener of the key drops the key entry. -/
lemma unsubscribe_cons_eq_empty (k : String) (l : Nat) (e : String × List Nat)
    (rest : Registry) (h : e.1 = k) (hemp : (e.2.erase l).isEmpty = true) :
    unsubscribe k l (e :: rest) = unsubscribe k l rest := by
  unfold unsubscribe
  rw [List.filterMap_cons]
  simp [h, hemp]

/-- Unsubscribing one of several listeners of the key keeps the key entry. -/
lemma unsubscribe_cons_eq_nonempty (k : String) (l : Nat) (e : String × List Nat)
    (rest : Registry) (h : e.1 = k) (hemp : (e.2.erase l).isEmpty = false) :
    unsubscribe k l (e :: rest) = (e.1, e.2.erase l) :: unsubscribe k l rest := by
  unfold unsubscribe
  rw [List.filterMap_cons]
  simp [h, hemp]

/-- A registry without the key is untouched by unsubscribe. -/
lemma unsubscribe_of_forall_ne (reg : Registry) (k : String) (l : Nat)
    (h : ∀ e ∈ reg, e.1 ≠ k) : unsubscribe k l reg = reg := by
  induction reg with
  | nil => rfl
  | cons e rest ih =>
    rw [unsubscribe_cons_ne k l e rest (h e (by simp))]
    rw [ih (fun e2 he2 => h e2 (List.mem_cons_of_mem _ he2))]

/-- The keys surviving an unsubscribe form a sublist of the original keys. -/
lemma keys_unsubscribe_sublist (reg : Registry) (k : String) (l : Nat) :
    ((unsubscribe k l reg).map Prod.fst).Sublist (reg.map Prod.fst) := by
  induction reg with
  | nil => exact List.Sublist.refl _
  | cons e rest ih =>
    by_cases he : e.1 = k
    · cases hemp : (e.2.erase l).isEmpty with
      | true =>
        rw [unsubscribe_cons_eq_empty k l e rest he hemp, List.map_cons]
        exact ih.cons _
      | false =>
        rw [unsubscribe_cons_eq_nonempty k l e rest he hemp, List.map_cons, List.map_cons]
        exact ih.cons₂ _
    · rw [unsubscribe_cons_ne k l e rest he, List.map_cons, List.map_cons]
      exact ih.cons₂ _

/-- Lookup of a different key passes through an unsubscribe unchanged. -/
lemma lookup_unsubscribe_ne (reg : Registry) (k k2 : String) (l : Nat) (h : k2 ≠ k) :
    List.lookup k2 (unsubscribe k l reg) = List.lookup k2 reg := by
  induction reg with
  | nil => rfl
  | cons e rest ih =>
    obtain ⟨a, b⟩ := e
    by_cases ha : a = k
    · have hbeq : (k2 == a) = false := beq_eq_false_iff_ne.mpr (ha ▸ h)
      cases hemp : (b.erase l).isEmpty with
      | true =>
        rw [unsubscribe_cons_eq_empty k l (a, b) rest ha hemp, ih]
        simp [List.lookup, hbeq]
      | false =>
        rw [unsubscribe_cons_eq_nonempty k l (a, b) rest ha hemp]
        simp [List.lookup, hbeq, ih]
    · rw [unsubscribe_cons_ne k l (a, b) rest ha]
      cases hbeq : (k2 == a) with
      | true => simp [List.lookup, hbeq]
      | false => simp [List.lookup, hbeq, ih]

/-- Lookup of the unsubscribed key after the unsubscribe, on a registry with
unique keys: the listener is erased from the set, and the entry is gone
entirely when that leaves the set empty. -/
lemma lookup_unsubscribe_self (reg : Registry) (k : String) (l : Nat)
    (hnd : (reg.map Prod.fst).Nodup) :
    List.lookup k (unsubscribe k l reg)
      = match List.lookup k reg with
        | none => none
        | some ls => if (ls.erase l).isEmpty then none else some (ls.erase l) := by
  induction reg with
  | nil => rfl
  | cons e rest ih =>
    obtain ⟨a, b⟩ := e
    rw [List.map_cons] at hnd
    obtain ⟨hnotin, hndr⟩ := List.nodup_cons.mp hnd
    by_cases ha : a = k
    · have hbeq : (k == a) = true := beq_iff_eq.mpr ha.symm
      have hrestne : ∀ e2 ∈ rest, e2.1 ≠ k := by
        intro e2 he2 hek
        exact hnotin (List.mem_map.mpr ⟨e2, he2, by rw [hek, ha]⟩)
      cases hemp : (b.erase l).isEmpty with
      | true =>
        rw [unsubscribe_cons_eq_empty k l (a, b) rest ha hemp,
          unsubscribe_of_forall_ne rest k l hrestne,
          lookup_none_of_forall_ne rest k hrestne]
        simp [List.lookup, hbeq, hemp]
      | false =>
        rw [unsubscribe_cons_eq_nonempty k l (a, b) rest ha hemp]
        simp [List.lookup, hbeq, hemp]
    · have hbeq : (k == a) = false := beq_eq_false_iff_ne.mpr (fun hk => ha hk.symm)
      rw [unsubscribe_cons_ne k l (a, b) rest ha]
      simp only [List.lookup, hbeq]
      exact ih hndr

/-- On a registry with unique keys, being registered is membership in the
set the lookup finds. -/
lemma registered_iff_lookup (reg : Registry) (k : String) (l : Nat)
    (hnd : (reg.map Prod.fst).Nodup) :
    registered k l reg ↔ l ∈ (List.lookup k reg).getD [] := by
  induction reg with
  | nil => simp [registered, List.lookup]
  | cons e rest ih =>
    obtain ⟨a, b⟩ := e
    rw [List.map_cons] at hnd
    obtain ⟨hnotin, hndr⟩ := List.nodup_cons.mp hnd
    by_cases ha : a = k
    · have hbeq : (k == a) = true := beq_iff_eq.mpr ha.symm
      simp only [List.lookup, hbeq, Option.getD_some]
      constructor
      · rintro ⟨e2, he2, hek, hl⟩
        rcases List.mem_cons.mp he2 with rfl | h2
        · exact hl
        · exact absurd (List.mem_map.mpr ⟨e2, h2, by rw [hek, ha]⟩) hnotin
      · intro hl
        exact ⟨(a, b), by simp, ha, hl⟩
    · have hbeq : (k == a) = false := beq_eq_false_iff_ne.mpr (fun hk => ha hk.symm)
      simp only [List.lookup, hbeq]
      rw [← ih hndr]
      unfold registered
      constructor
      · rintro ⟨e2, he2, hek, hl⟩
        rcases List.mem_cons.mp he2 with rfl | h2
        · exact absurd hek ha
        · exact ⟨e2, h2, hek, hl⟩
      · rintro ⟨e2, he2, hek, hl⟩
        exact ⟨e2, List.mem_cons_of_mem _ he2, hek, hl⟩

/-- Unsubscribing the same listener twice equals unsubscribing it once. -/
lemma unsubscribe_idem (reg : Registry) (k : String) (l : Nat)
    (hnd : (reg.map Prod.fst).Nodup) (hells : ∀ e ∈ reg, e.2.Nodup) :
    unsubscribe k l (unsubscribe k l reg) = unsubscribe k l reg := by
  induction reg with
  | nil => rfl
  | cons e rest ih =>
    obtain ⟨a, b⟩ := e
    rw [List.map_cons] at hnd
    obtain ⟨hnotin, hndr⟩ := List.nodup_cons.mp hnd
    have hbnd : b.Nodup := hells (a, b) (by simp)
    have hellsr : ∀ e2 ∈ rest, e2.2.Nodup :=
      fun e2 he2 => hells e2 (List.mem_cons_of_mem _ he2)
    by_cases ha : a = k
    · have hrestne : ∀ e2 ∈ rest, e2.1 ≠ k := by
        intro e2 he2 hek
        exact hnotin (List.mem_map.mpr ⟨e2, he2, by rw [hek, ha]⟩)
      have hrest : unsubscribe k l rest = rest := unsubscribe_of_forall_ne rest k l hrestne
      cases hemp : (b.erase l).isEmpty with
      | true =>
        rw [unsubscribe_cons_eq_empty k l (a, b) rest ha hemp, hrest, hrest]
      | false =>
        rw [unsubscribe_cons_eq_nonempty k l (a, b) rest ha hemp, hrest]
        have hnm : l ∉ b.erase l := by
          intro hmem
          exact ((List.Nodup.mem_erase_iff hbnd).mp hmem).1 rfl
        have herase2 : (b.erase l).erase l = b.erase l := List.erase_of_not_mem hnm
        rw [unsubscribe_cons_eq_nonempty k l (a, b.erase l) rest ha
          (show ((b.erase l).erase l).isEmpty = false by rw [herase2]; exact hemp), hrest]
        simp [herase2]
    · rw [unsubscribe_cons_ne k l (a, b) rest ha,
        unsubscribe_cons_ne k l (a, b) (unsubscribe k l rest) ha,
        ih hndr hellsr]

/-- C6: publish for a key invokes exactly the callbacks registered under that
key (so never one registered only under a different key); the disposer for
(k, l) removes exactly that one registration, leaving every other key and
every sibling listener registered; and the disposer is idempotent: running it
twice leaves the same registry as running it once. -/
theorem bus_publish_unsubscribe (reg : Registry) (k k2 : String) (l l2 : Nat)
    (hwf : WFReg reg) :
    (l ∈ publishList k reg ↔ registered k l reg)
    ∧ (registered k2 l2 (unsubscribe k l reg)
        ↔ (registered k2 l2 reg ∧ ¬(k2 = k ∧ l2 = l)))
    ∧ unsubscribe k l (unsubscribe k l reg) = unsubscribe k l reg := by
  obtain ⟨hnd, hells⟩ := hwf
  refine ⟨?_, ?_, unsubscribe_idem reg k l hnd hells⟩
  · rw [registered_iff_lookup reg k l hnd]
    unfold publishList
    exact Iff.rfl
  · have hnd2 : ((unsubscribe k l reg).map Prod.fst).Nodup :=
      (keys_unsubscribe_sublist reg k l).nodup hnd
    rw [registered_iff_lookup _ k2 l2 hnd2, registered_iff_lookup _ k2 l2 hnd]
    by_cases hk : k2 = k
    · subst hk
      rw [lookup_unsubscribe_self reg k2 l hnd]
      cases hlk : List.lookup k2 reg with
      | none => simp
      | some ls =>
        have hlsnd : ls.Nodup := by
          obtain ⟨e, he, hek, hev⟩ := lookup_some_entry_mem reg k2 ls hlk
          exact hev ▸ hells e he
        cases hemp : (ls.erase l).isEmpty with
        | true =>
          have herase : ls.erase l = [] := by
            cases hv : ls.erase l with
            | nil => rfl
            | cons x xs => rw [hv] at hemp; cases hemp
          simp only [hemp, if_true, Option.getD_none, Option.getD_some]
          constructor
          · intro h
            cases h
          · rintro ⟨h1, h2⟩
            have hne : l2 ≠ l := fun hkl => h2 ⟨by trivial, hkl⟩
            have : l2 ∈ ls.erase l := (List.Nodup.mem_erase_iff hlsnd).mpr ⟨hne, h1⟩
            rw [herase] at this
            cases this
        | false =>
          simp only [hemp, if_false, Option.getD_some, Bool.false_eq_true]
          rw [List.Nodup.mem_erase_iff hlsnd]
          constructor
          · rintro ⟨h1, h2⟩
            exact ⟨h2, fun hp => h1 hp.2⟩
          · rintro ⟨h1, h2⟩
            exact ⟨fun hkl => h2 ⟨by trivial, hkl⟩, h1⟩
    · rw [lookup_unsubscribe_ne reg k k2 l hk]
      have : ¬(k2 = k ∧ l2 = l) := fun hp => hk hp.1
      simp [this]

/-- Witness for C6 at a concrete two-key registry. -/
theorem bus_publish_unsubscribe_witness :
    WFReg [("a", [0, 1]), ("b", [2])]
    ∧ ((0 ∈ publishList "a" [("a", [0, 1]), ("b", [2])]
          ↔ registered "a" 0 [("a", [0, 1]), ("b", [2])])
      ∧ (registered "a" 1 (unsubscribe "a" 0 [("a", [0, 1]), ("b", [2])])
          ↔ (registered "a" 1 [("a", [0, 1]), ("b", [2])] ∧ ¬("a" = "a" ∧ (1 : Nat) = 0)))
      ∧ unsubscribe "a" 0 (unsubscribe "a" 0 [("a", [0, 1]), ("b", [2])])
          = unsubscribe "a" 0 [("a", [0, 1]), ("b", [2])]) :=
  ⟨by decide, bus_publish_unsubscribe [("a", [0, 1]), ("b", [2])] "a" "a" 0 1 (by decide)⟩

/-- Adding a listener never leaves an empty set. -/
lemma addToSet_ne_nil (l : Nat) (ls : List Nat) : addToSet l ls ≠ [] := by
  unfold addToSet
  by_cases h : l ∈ ls
  · rw [if_pos h]
    exact List.ne_nil_of_mem h
  · rw [if_neg h]
    simp

/-- subscribe keeps every listener set of the registry non-empty. -/
lemma allEntriesNonempty_subscribe (reg : Registry) (k : String) (l : Nat)
    (h : allEntriesNonempty reg) : allEntriesNonempty (subscribe k l reg) := by
  intro e he
  unfold subscribe at he
  obtain ⟨e0, he0, hfe⟩ := List.mem_map.mp he
  by_cases h0 : e0.1 = k
  · rw [if_pos h0] at hfe
    rw [← hfe]
    exact addToSet_ne_nil l e0.2
  · rw [if_neg h0] at hfe
    subst hfe
    by_cases hlk : (List.lookup k reg).isSome
    · rw [if_pos hlk] at he0
      exact h e0 he0
    · rw [if_neg hlk] at he0
      rcases List.mem_append.mp he0 with h1 | h1
      · exact h e0 h1
      · obtain rfl : e0 = (k, []) := List.mem_singleton.mp h1
        exact absurd rfl h0

/-- unsubscribe keeps every listener set of the registry non-empty. -/
lemma allEntriesNonempty_unsubscribe (reg : Registry) (k : String) (l : Nat)
    (h : allEntriesNonempty reg) : allEntriesNonempty (unsubscribe k l reg) := by
  intro e he
  unfold unsubscribe at he
  obtain ⟨e0, he0, hfe⟩ := List.mem_filterMap.mp he
  by_cases h0 : e0.1 = k
  · rw [if_pos h0] at hfe
    cases hemp : (e0.2.erase l).isEmpty with
    | true => rw [hemp] at hfe; simp at hfe
    | false =>
      rw [hemp] at hfe
      simp only [Bool.false_eq_true, if_false, Option.some_inj] at hfe
      rw [← hfe]
      intro hnil
      have hnil2 : e0.2.erase l = [] := hnil
      rw [hnil2] at hemp
      cases hemp
  · rw [if_neg h0] at hfe
    obtain rfl : e0 = e := Option.some_inj.mp hfe
    exact h e0 he0

/-- C7: in every registry state reachable from the initial empty bus by
subscribe and disposer calls, every key present maps to a non-empty listener
set -- a key is dropped as soon as its last listener is unsubscribed. -/
theorem bus_keys_nonempty (reg : Registry) (h : Reachable reg) : allEntriesNonempty reg := by
  induction h with
  | init => intro e he; cases he
  | sub key l hr ih => exact allEntriesNonempty_subscribe _ key l ih
  | unsub key l hr ih => exact allEntriesNonempty_unsubscribe _ key l ih

/-- Witness for C7 at a one-subscription reachable registry. -/
theorem bus_keys_nonempty_witness : allEntriesNonempty (subscribe "a" 0 []) :=
  bus_keys_nonempty (subscribe "a" 0 []) (Reachable.sub "a" 0 Reachable.init)

end Depot
